import Mathlib

/-!
Verification of the in-memory Todo repository of `wato787/go-todo`
(`src/main.go`, the gin variant with the `TodoRepository` split).

Modelling choices:
  * Go `uint` values are modelled as `Nat`, and Go's wrapping unsigned
    arithmetic is modelled explicitly: the counter increment `r.nextID++`
    becomes `(r.nextID + 1) % uintSize` with `uintSize = 2^64`, the width of
    `uint` on the 64-bit targets Go commonly builds (on a 32-bit build the
    same development holds with `2^32`).  Statements about unbounded runs are
    settled against this wrapping semantics: monotonicity and the counter
    invariants fail once a run performs enough creates to wrap, and hold below
    that bound.
  * `time.Time` / `time.Now()` is modelled as an abstract `Nat` tick handed to
    each mutating operation by its caller (an explicit clock parameter).
  * The Go `map[uint]Todo` is modelled as an association list with the usual
    lookup / insert-or-overwrite / delete operations.
  * `error` results (`errors.New("todo not found")`) become `Except String`.
  * The single mutex makes every operation atomic; the model therefore works
    directly with sequential state passing.
-/

namespace GoTodo

/-- The `Todo` struct of the gin variant (`src/main.go` lines 177-183). -/
structure Todo where
  ID : Nat
  Title : String
  Completed : Bool
  CreatedAt : Nat
  UpdatedAt : Nat
  deriving DecidableEq, Repr

/-- Lookup in the association-list model of `map[uint]Todo`. -/
def mapLookup : List (Nat × Todo) → Nat → Option Todo
  | [], _ => none
  | (k, v) :: rest, key => if k = key then some v else mapLookup rest key

/-- Insert-or-overwrite (`m[k] = v`) in the association-list model. -/
def mapInsert : List (Nat × Todo) → Nat → Todo → List (Nat × Todo)
  | [], key, v => [(key, v)]
  | (k, w) :: rest, key, v =>
      if k = key then (key, v) :: rest else (k, w) :: mapInsert rest key v

/-- Deletion (`delete(m, k)`) in the association-list model. -/
def mapErase : List (Nat × Todo) → Nat → List (Nat × Todo)
  | [], _ => []
  | (k, w) :: rest, key =>
      if k = key then mapErase rest key else (k, w) :: mapErase rest key

/-- Width of the Go `uint` type on a 64-bit platform: unsigned arithmetic on
`nextID` wraps modulo this value. -/
def uintSize : Nat := 2 ^ 64

/-- The `TodoRepository` state: the record map and the id counter (a Go
`uint`, so always below `uintSize` in states the program can represent).
The mutex does not appear; operations are already atomic in the model. -/
structure TodoRepository where
  todos : List (Nat × Todo)
  nextID : Nat
  deriving DecidableEq, Repr

/-- `NewTodoRepository` (`src/main.go` lines 193-198): empty map, counter 1. -/
def NewTodoRepository : TodoRepository :=
  { todos := [], nextID := 1 }

/-- `TodoRepository.FindAll` (lines 201-210): all stored records. -/
def FindAll (r : TodoRepository) : List Todo :=
  r.todos.map Prod.snd

/-- `TodoRepository.FindByID` (lines 213-222). -/
def FindByID (r : TodoRepository) (id : Nat) : Except String Todo :=
  match mapLookup r.todos id with
  | some todo => Except.ok todo
  | none => Except.error "todo not found"

/-- `TodoRepository.Create` (lines 225-237): overwrite the caller's `ID`,
`CreatedAt` and `UpdatedAt`, store under the fresh id, bump the counter
(`r.nextID++` — Go unsigned increment, wrapping modulo `uintSize`), return
the stored record. -/
def Create (r : TodoRepository) (todo : Todo) (now : Nat) : TodoRepository × Todo :=
  let stored : Todo :=
    { todo with ID := r.nextID, CreatedAt := now, UpdatedAt := now }
  ({ todos := mapInsert r.todos stored.ID stored,
     nextID := (r.nextID + 1) % uintSize }, stored)

/-- `TodoRepository.Update` (lines 240-258): not-found error when the id is
absent; otherwise replace the title only when the supplied title is non-empty,
always overwrite `Completed`, refresh `UpdatedAt`, store and return. -/
def Update (r : TodoRepository) (id : Nat) (todo : Todo) (now : Nat) :
    TodoRepository × Except String Todo :=
  match mapLookup r.todos id with
  | none => (r, Except.error "todo not found")
  | some existing =>
      let withTitle : Todo :=
        if todo.Title ≠ "" then { existing with Title := todo.Title } else existing
      let updated : Todo := { withTitle with Completed := todo.Completed, UpdatedAt := now }
      ({ r with todos := mapInsert r.todos id updated }, Except.ok updated)

/-- `TodoRepository.Delete` (lines 261-271): not-found error when the id is
absent; otherwise remove the record. -/
def Delete (r : TodoRepository) (id : Nat) : TodoRepository × Except String Unit :=
  match mapLookup r.todos id with
  | none => (r, Except.error "todo not found")
  | some _ => ({ r with todos := mapErase r.todos id }, Except.ok ())

/-- Gin's `ShouldBindJSON` against the `binding:"required"` tag on `Title`
(line 179): binding fails when `Title` is the string zero value `""`
(a required field that is absent or empty). -/
def bindTodoJSON (todo : Todo) : Except String Todo :=
  if todo.Title = "" then
    Except.error "Field validation for Title failed on the required tag"
  else
    Except.ok todo

/-- The handler `TodoHandler.CreateTodo` (lines 307-316) restricted to its
data flow: bind (validate) the input, then `Create`; on binding failure the
repository is untouched. -/
def CreateTodo (r : TodoRepository) (input : Todo) (now : Nat) :
    TodoRepository × Except String Todo :=
  match bindTodoJSON input with
  | Except.error e => (r, Except.error e)
  | Except.ok todo =>
      let result := Create r todo now
      (result.1, Except.ok result.2)

/-- One repository mutation, for quantifying over operation sequences. -/
inductive Op where
  | create (input : Todo) (now : Nat)
  | update (id : Nat) (input : Todo) (now : Nat)
  | delete (id : Nat)
  deriving DecidableEq, Repr

/-- State transition of a single operation (result value discarded). -/
def applyOp (r : TodoRepository) : Op → TodoRepository
  | Op.create input now => (Create r input now).1
  | Op.update id input now => (Update r id input now).1
  | Op.delete id => (Delete r id).1

/-- Run a sequence of operations from a fresh repository. -/
def execOps (ops : List Op) : TodoRepository :=
  ops.foldl applyOp NewTodoRepository

/-- State transition that also records every id a `Create` hands out. -/
def applyOpTr (s : TodoRepository × List Nat) (op : Op) : TodoRepository × List Nat :=
  match op with
  | Op.create input now =>
      let result := Create s.1 input now
      (result.1, s.2 ++ [result.2.ID])
  | Op.update id input now => ((Update s.1 id input now).1, s.2)
  | Op.delete id => ((Delete s.1 id).1, s.2)

/-- Run a sequence of operations from a fresh repository, recording the ids
assigned by the creates, in call order. -/
def execOpsTr (ops : List Op) : TodoRepository × List Nat :=
  ops.foldl applyOpTr (NewTodoRepository, [])

/-- Number of `create` operations in a sequence. -/
def numCreates : List Op → Nat
  | [] => 0
  | Op.create _ _ :: rest => numCreates rest + 1
  | Op.update _ _ _ :: rest => numCreates rest
  | Op.delete _ :: rest => numCreates rest

/-- Repository well-formedness: map keys are distinct, every stored record
carries its own key as `ID`, every key is below the counter, and the counter
is at least 1. -/
def WF (r : TodoRepository) : Prop :=
  (r.todos.map Prod.fst).Nodup ∧
  (∀ k t, mapLookup r.todos k = some t → t.ID = k ∧ 1 ≤ k ∧ k < r.nextID) ∧
  1 ≤ r.nextID

/-- The wrap-robust part of well-formedness: map keys are distinct and every
stored record carries its own key as `ID`.  Unlike `WF` this is preserved by
every operation even after the counter wraps. -/
def WFkeys (r : TodoRepository) : Prop :=
  (r.todos.map Prod.fst).Nodup ∧
  (∀ k t, mapLookup r.todos k = some t → t.ID = k)

/-- Fold a sequence of `Update` calls (target id, payload, clock) over a
repository, keeping only the state. -/
def applyUpdates (r : TodoRepository) (ps : List (Nat × Todo × Nat)) : TodoRepository :=
  ps.foldl (fun s p => (Update s p.1 p.2.1 p.2.2).1) r

/-! Helper lemmas about the association-list map model. -/

theorem mapLookup_insert_self (m : List (Nat × Todo)) (k : Nat) (v : Todo) :
    mapLookup (mapInsert m k v) k = some v := by
  induction m with
  | nil => simp [mapInsert, mapLookup]
  | cons p rest ih =>
      obtain ⟨k', w⟩ := p
      by_cases h : k' = k
      · simp [mapInsert, mapLookup, h]
      · simp [mapInsert, mapLookup, h, ih]

theorem mapLookup_insert_ne (m : List (Nat × Todo)) (k : Nat) (v : Todo)
    (k' : Nat) (h : k' ≠ k) : mapLookup (mapInsert m k v) k' = mapLookup m k' := by
  induction m with
  | nil => simp [mapInsert, mapLookup, Ne.symm h]
  | cons p rest ih =>
      obtain ⟨a, w⟩ := p
      by_cases ha : a = k
      · subst ha
        simp [mapInsert, mapLookup, Ne.symm h]
      · simp [mapInsert, mapLookup, ha, ih]

theorem mapLookup_erase_self (m : List (Nat × Todo)) (k : Nat) :
    mapLookup (mapErase m k) k = none := by
  induction m with
  | nil => simp [mapErase, mapLookup]
  | cons p rest ih =>
      obtain ⟨a, w⟩ := p
      by_cases ha : a = k
      · simp [mapErase, ha, ih]
      · simp [mapErase, mapLookup, ha, ih]

theorem mapLookup_erase_ne (m : List (Nat × Todo)) (k : Nat) (k' : Nat)
    (h : k' ≠ k) : mapLookup (mapErase m k) k' = mapLookup m k' := by
  induction m with
  | nil => simp [mapErase]
  | cons p rest ih =>
      obtain ⟨a, w⟩ := p
      by_cases ha : a = k
      · subst ha
        simp [mapErase, mapLookup, Ne.symm h, ih]
      · simp [mapErase, mapLookup, ha, ih]

theorem mem_keys_mapInsert (m : List (Nat × Todo)) (k : Nat) (v : Todo)
    (a : Nat) : a ∈ (mapInsert m k v).map Prod.fst ↔ a = k ∨ a ∈ m.map Prod.fst := by
  induction m with
  | nil => simp [mapInsert]
  | cons p rest ih =>
      obtain ⟨b, w⟩ := p
      by_cases hb : b = k
      · subst hb
        rw [show mapInsert ((b, w) :: rest) b v = (b, v) :: rest from by simp [mapInsert]]
        simp only [List.map_cons, List.mem_cons]
        tauto
      · rw [show mapInsert ((b, w) :: rest) k v = (b, w) :: mapInsert rest k v from by
            simp [mapInsert, hb]]
        simp only [List.map_cons, List.mem_cons, ih]
        tauto

theorem keys_nodup_mapInsert (m : List (Nat × Todo)) (k : Nat) (v : Todo)
    (h : (m.map Prod.fst).Nodup) : ((mapInsert m k v).map Prod.fst).Nodup := by
  induction m with
  | nil => simp [mapInsert]
  | cons p rest ih =>
      obtain ⟨b, w⟩ := p
      simp only [List.map_cons, List.nodup_cons] at h
      by_cases hb : b = k
      · subst hb
        rw [show mapInsert ((b, w) :: rest) b v = (b, v) :: rest from by simp [mapInsert]]
        simp only [List.map_cons, List.nodup_cons]
        exact h
      · rw [show mapInsert ((b, w) :: rest) k v = (b, w) :: mapInsert rest k v from by
            simp [mapInsert, hb]]
        simp only [List.map_cons, List.nodup_cons]
        refine ⟨?_, ih h.2⟩
        intro hmem
        rcases (mem_keys_mapInsert rest k v b).mp hmem with he | he
        · exact hb he
        · exact h.1 he

theorem keys_mapErase (m : List (Nat × Todo)) (k : Nat) :
    (mapErase m k).map Prod.fst = (m.map Prod.fst).filter (fun a => decide (a ≠ k)) := by
  induction m with
  | nil => simp [mapErase]
  | cons p rest ih =>
      obtain ⟨b, w⟩ := p
      by_cases hb : b = k
      · simp [mapErase, hb, ih]
      · simp [mapErase, hb, ih, List.filter_cons]

theorem keys_nodup_mapErase (m : List (Nat × Todo)) (k : Nat)
    (h : (m.map Prod.fst).Nodup) : ((mapErase m k).map Prod.fst).Nodup := by
  rw [keys_mapErase]
  exact h.filter _

theorem mapLookup_eq_none_iff (m : List (Nat × Todo)) (k : Nat) :
    mapLookup m k = none ↔ k ∉ m.map Prod.fst := by
  induction m with
  | nil => simp [mapLookup]
  | cons p rest ih =>
      obtain ⟨b, w⟩ := p
      by_cases hb : b = k
      · subst hb
        simp [mapLookup]
      · simp [mapLookup, hb, ih, Ne.symm hb]

theorem mapLookup_erase_of_lookup (m : List (Nat × Todo)) (key k : Nat) (t : Todo)
    (h : mapLookup (mapErase m key) k = some t) : mapLookup m k = some t := by
  by_cases hk : k = key
  · subst hk
    rw [mapLookup_erase_self] at h
    exact absurd h (by simp)
  · rwa [mapLookup_erase_ne m key k hk] at h

/-! Preservation of well-formedness. -/

theorem WF_new : WF NewTodoRepository := by
  refine ⟨by simp [NewTodoRepository], ?_, by simp [NewTodoRepository]⟩
  intro k t h
  simp [NewTodoRepository, mapLookup] at h

theorem Update_fst_nextID (r : TodoRepository) (id : Nat) (input : Todo) (now : Nat) :
    (Update r id input now).1.nextID = r.nextID := by
  unfold Update
  cases mapLookup r.todos id <;> rfl

theorem Delete_fst_nextID (r : TodoRepository) (id : Nat) :
    (Delete r id).1.nextID = r.nextID := by
  unfold Delete
  cases mapLookup r.todos id <;> rfl

theorem WFkeys_new : WFkeys NewTodoRepository := by
  refine ⟨by simp [NewTodoRepository], ?_⟩
  intro k t h
  simp [NewTodoRepository, mapLookup] at h

theorem WFkeys_applyOp (r : TodoRepository) (op : Op) (h : WFkeys r) :
    WFkeys (applyOp r op) := by
  obtain ⟨hnd, hlk⟩ := h
  cases op with
  | create input now =>
      simp only [applyOp, Create]
      refine ⟨keys_nodup_mapInsert _ _ _ hnd, ?_⟩
      intro k t hk
      by_cases hk' : k = r.nextID
      · subst hk'
        rw [mapLookup_insert_self] at hk
        injection hk with he
        subst he
        rfl
      · rw [mapLookup_insert_ne _ _ _ _ hk'] at hk
        exact hlk k t hk
  | update id input now =>
      simp only [applyOp, Update]
      cases hcase : mapLookup r.todos id with
      | none =>
          simp only
          exact ⟨hnd, hlk⟩
      | some existing =>
          simp only
          refine ⟨keys_nodup_mapInsert _ _ _ hnd, ?_⟩
          intro k t hk
          by_cases hk' : k = id
          · subst hk'
            rw [mapLookup_insert_self] at hk
            injection hk with he
            subst he
            have hid := hlk k existing hcase
            by_cases ht : input.Title = "" <;> simp [ht, hid]
          · rw [mapLookup_insert_ne _ _ _ _ hk'] at hk
            exact hlk k t hk
  | delete id =>
      simp only [applyOp, Delete]
      cases hcase : mapLookup r.todos id with
      | none =>
          simp only
          exact ⟨hnd, hlk⟩
      | some existing =>
          simp only
          refine ⟨keys_nodup_mapErase _ _ hnd, ?_⟩
          intro k t hk
          exact hlk k t (mapLookup_erase_of_lookup _ _ _ _ hk)

theorem WFkeys_foldl (ops : List Op) (r : TodoRepository) (h : WFkeys r) :
    WFkeys (ops.foldl applyOp r) := by
  induction ops generalizing r with
  | nil => exact h
  | cons op rest ih => exact ih _ (WFkeys_applyOp r op h)

theorem WFkeys_execOps (ops : List Op) : WFkeys (execOps ops) :=
  WFkeys_foldl ops NewTodoRepository WFkeys_new

theorem WF_create (r : TodoRepository) (input : Todo) (now : Nat) (h : WF r)
    (hb : r.nextID + 1 < uintSize) : WF (Create r input now).1 := by
  obtain ⟨hnd, hlk, hge⟩ := h
  have hmod : (r.nextID + 1) % uintSize = r.nextID + 1 := Nat.mod_eq_of_lt hb
  simp only [Create, hmod]
  refine ⟨keys_nodup_mapInsert _ _ _ hnd, ?_, Nat.le_succ_of_le hge⟩
  intro k t hk
  by_cases hk' : k = r.nextID
  · subst hk'
    rw [mapLookup_insert_self] at hk
    injection hk with he
    subst he
    exact ⟨rfl, hge, Nat.lt_succ_self _⟩
  · rw [mapLookup_insert_ne _ _ _ _ hk'] at hk
    obtain ⟨hid, hone, hlt⟩ := hlk k t hk
    exact ⟨hid, hone, Nat.lt_succ_of_lt hlt⟩

theorem WF_update (r : TodoRepository) (id : Nat) (input : Todo) (now : Nat)
    (h : WF r) : WF (Update r id input now).1 := by
  obtain ⟨hnd, hlk, hge⟩ := h
  simp only [Update]
  cases hcase : mapLookup r.todos id with
  | none =>
      simp only
      exact ⟨hnd, hlk, hge⟩
  | some existing =>
      simp only
      refine ⟨keys_nodup_mapInsert _ _ _ hnd, ?_, hge⟩
      intro k t hk
      by_cases hk' : k = id
      · subst hk'
        rw [mapLookup_insert_self] at hk
        injection hk with he
        subst he
        obtain ⟨hid, hone, hlt⟩ := hlk k existing hcase
        refine ⟨?_, hone, hlt⟩
        by_cases ht : input.Title = "" <;> simp [ht, hid]
      · rw [mapLookup_insert_ne _ _ _ _ hk'] at hk
        exact hlk k t hk

theorem WF_delete (r : TodoRepository) (id : Nat) (h : WF r) :
    WF (Delete r id).1 := by
  obtain ⟨hnd, hlk, hge⟩ := h
  simp only [Delete]
  cases hcase : mapLookup r.todos id with
  | none =>
      simp only
      exact ⟨hnd, hlk, hge⟩
  | some existing =>
      simp only
      refine ⟨keys_nodup_mapErase _ _ hnd, ?_, hge⟩
      intro k t hk
      exact hlk k t (mapLookup_erase_of_lookup _ _ _ _ hk)

/-- As long as the remaining creates cannot make the counter wrap, the full
invariant `WF` (including the numeric bounds on keys and counter) is
preserved along a run. -/
theorem WF_foldl_bounded (ops : List Op) (r : TodoRepository) (h : WF r)
    (hb : r.nextID + numCreates ops < uintSize) : WF (ops.foldl applyOp r) := by
  induction ops generalizing r with
  | nil => exact h
  | cons op rest ih =>
      cases op with
      | create input now =>
          have hnc : numCreates (Op.create input now :: rest) = numCreates rest + 1 := rfl
          rw [hnc] at hb
          have hb1 : r.nextID + 1 < uintSize := by omega
          have hmod : (applyOp r (Op.create input now)).nextID = r.nextID + 1 := by
            show (r.nextID + 1) % uintSize = r.nextID + 1
            exact Nat.mod_eq_of_lt hb1
          refine ih _ (WF_create r input now h hb1) ?_
          rw [hmod]
          omega
      | update id input now =>
          have hnc : numCreates (Op.update id input now :: rest) = numCreates rest := rfl
          rw [hnc] at hb
          have hfst : (applyOp r (Op.update id input now)).nextID = r.nextID :=
            Update_fst_nextID r id input now
          refine ih _ (WF_update r id input now h) ?_
          rw [hfst]
          exact hb
      | delete id =>
          have hnc : numCreates (Op.delete id :: rest) = numCreates rest := rfl
          rw [hnc] at hb
          have hfst : (applyOp r (Op.delete id)).nextID = r.nextID :=
            Delete_fst_nextID r id
          refine ih _ (WF_delete r id h) ?_
          rw [hfst]
          exact hb

theorem WF_execOps_bounded (ops : List Op) (hb : numCreates ops + 1 < uintSize) :
    WF (execOps ops) := by
  refine WF_foldl_bounded ops NewTodoRepository WF_new ?_
  show 1 + numCreates ops < uintSize
  omega

theorem mapLookup_of_mem (m : List (Nat × Todo)) (hnd : (m.map Prod.fst).Nodup)
    (k : Nat) (t : Todo) (hmem : (k, t) ∈ m) : mapLookup m k = some t := by
  induction m with
  | nil => cases hmem
  | cons p rest ih =>
      obtain ⟨b, w⟩ := p
      simp only [List.map_cons, List.nodup_cons] at hnd
      rcases List.mem_cons.mp hmem with he | he
      · injection he with h1 h2
        subst h1
        subst h2
        simp [mapLookup]
      · have hk : k ∈ rest.map Prod.fst :=
          List.mem_map.mpr ⟨(k, t), he, rfl⟩
        have hbk : ¬b = k := fun e => hnd.1 (e ▸ hk)
        simp [mapLookup, hbk, ih hnd.2 he]

/-- Bounded id trace of a run: as long as the creates in the sequence cannot
make the counter pass the word size (`r.nextID + numCreates ops ≤ uintSize`),
they hand out the consecutive ids `nextID, nextID+1, …` in call order, and
the counter ends at `(nextID + numCreates) % uintSize` (the modulus bites
only when the run ends exactly at the boundary). -/
theorem foldl_applyOpTr_bounded (ops : List Op) (r : TodoRepository) (tr : List Nat)
    (hlt : r.nextID < uintSize) (hb : r.nextID + numCreates ops ≤ uintSize) :
    (ops.foldl applyOpTr (r, tr)).2 = tr ++ List.range' r.nextID (numCreates ops) ∧
    (ops.foldl applyOpTr (r, tr)).1.nextID = (r.nextID + numCreates ops) % uintSize := by
  induction ops generalizing r tr with
  | nil => simp [numCreates, Nat.mod_eq_of_lt hlt]
  | cons op rest ih =>
      cases op with
      | create input now =>
          have hid : (Create r input now).2.ID = r.nextID := rfl
          have hnext : (Create r input now).1.nextID = (r.nextID + 1) % uintSize := rfl
          have hnc : numCreates (Op.create input now :: rest) = numCreates rest + 1 := rfl
          rw [hnc] at hb ⊢
          by_cases hw : r.nextID + 1 < uintSize
          · have hmod : (r.nextID + 1) % uintSize = r.nextID + 1 := Nat.mod_eq_of_lt hw
            have h := ih (Create r input now).1 (tr ++ [r.nextID])
              (by rw [hnext, hmod]; exact hw) (by rw [hnext, hmod]; omega)
            simp only [List.foldl_cons, applyOpTr, hid] at h ⊢
            rw [List.range'_succ]
            constructor
            · rw [h.1, hnext, hmod]
              simp
            · rw [h.2, hnext, hmod]
              congr 1
              omega
          · have hz : numCreates rest = 0 := by omega
            have heq : r.nextID + 1 = uintSize := by omega
            have hmod : (r.nextID + 1) % uintSize = 0 := by rw [heq, Nat.mod_self]
            have h := ih (Create r input now).1 (tr ++ [r.nextID])
              (by rw [hnext, hmod]; decide) (by rw [hnext, hmod, hz]; omega)
            simp only [List.foldl_cons, applyOpTr, hid] at h ⊢
            rw [hz] at h ⊢
            constructor
            · rw [h.1]
              simp [List.range']
            · rw [h.2, hnext]
              simp [hmod]
      | update id input now =>
          have hnc : numCreates (Op.update id input now :: rest) = numCreates rest := rfl
          rw [hnc] at hb ⊢
          have hfst : (Update r id input now).1.nextID = r.nextID :=
            Update_fst_nextID r id input now
          have h := ih (Update r id input now).1 tr (by rw [hfst]; exact hlt)
            (by rw [hfst]; exact hb)
          simp only [List.foldl_cons, applyOpTr] at h ⊢
          exact ⟨by rw [h.1, hfst], by rw [h.2, hfst]⟩
      | delete id =>
          have hnc : numCreates (Op.delete id :: rest) = numCreates rest := rfl
          rw [hnc] at hb ⊢
          have hfst : (Delete r id).1.nextID = r.nextID := Delete_fst_nextID r id
          have h := ih (Delete r id).1 tr (by rw [hfst]; exact hlt)
            (by rw [hfst]; exact hb)
          simp only [List.foldl_cons, applyOpTr] at h ⊢
          exact ⟨by rw [h.1, hfst], by rw [h.2, hfst]⟩

theorem numCreates_replicate_create (n : Nat) (input : Todo) (now : Nat) :
    numCreates (List.replicate n (Op.create input now)) = n := by
  induction n with
  | zero => rfl
  | succ m ih => simp [List.replicate_succ, numCreates, ih]

theorem applyOpTr_create_snd (s : TodoRepository × List Nat) (input : Todo)
    (now : Nat) : (applyOpTr s (Op.create input now)).2 = s.2 ++ [s.1.nextID] := rfl

theorem foldl_applyOpTr_fst (ops : List Op) (r : TodoRepository) (tr : List Nat) :
    (ops.foldl applyOpTr (r, tr)).1 = ops.foldl applyOp r := by
  induction ops generalizing r tr with
  | nil => rfl
  | cons op rest ih =>
      cases op with
      | create input now => exact ih _ _
      | update id input now => exact ih _ _
      | delete id => exact ih _ _

/-- In a key-well-formed repository the stored records' `ID` fields are
exactly the map keys. -/
theorem stored_ids_eq_keys (r : TodoRepository) (h : WFkeys r) :
    (FindAll r).map Todo.ID = r.todos.map Prod.fst := by
  unfold FindAll
  rw [List.map_map]
  refine List.map_congr_left ?_
  intro p hp
  exact h.2 p.1 p.2 (mapLookup_of_mem r.todos h.1 p.1 p.2 hp)

/-! Claim theorems. -/

/-- C1 (amended): provided the total number of creates in the sequence stays
below `uintSize` — so the wrapping `uint` counter cannot come back around —
the ids handed out by successful creates over any operation sequence from a
fresh repository are, in call order, exactly `1, 2, 3, …`: the first is 1,
each is strictly greater than every previously assigned id, and no id is
ever assigned twice (so none is reused after a delete); moreover the ids of
the records in the store are pairwise distinct.  Without the bound the
counter wraps and the property fails (see the counterexample). -/
theorem create_ids_unique_and_monotone (ops : List Op)
    (h : numCreates ops < uintSize) :
    (execOpsTr ops).2 = List.range' 1 (numCreates ops) ∧
    (execOpsTr ops).2.Pairwise (· < ·) ∧
    ((FindAll (execOps ops)).map Todo.ID).Nodup := by
  have hb := foldl_applyOpTr_bounded ops NewTodoRepository [] (by decide)
    (by show 1 + numCreates ops ≤ uintSize; omega)
  have htr : (execOpsTr ops).2 = List.range' 1 (numCreates ops) := by
    simpa [execOpsTr, NewTodoRepository] using hb.1
  refine ⟨htr, ?_, ?_⟩
  · rw [htr]
    exact List.pairwise_lt_range' 1 (numCreates ops)
  · rw [stored_ids_eq_keys _ (WFkeys_execOps ops)]
    exact (WFkeys_execOps ops).1

/-- C1 witness: two creates from a fresh repository assign the id trace
`[1, 2]`. -/
theorem create_ids_unique_and_monotone_witness :
    (execOpsTr [Op.create ⟨0, "a", false, 0, 0⟩ 5, Op.create ⟨0, "b", false, 0, 0⟩ 6]).2 =
      List.range' 1 (numCreates
        [Op.create ⟨0, "a", false, 0, 0⟩ 5, Op.create ⟨0, "b", false, 0, 0⟩ 6]) :=
  (create_ids_unique_and_monotone
    [Op.create ⟨0, "a", false, 0, 0⟩ 5, Op.create ⟨0, "b", false, 0, 0⟩ 6] (by decide)).1

/-- C1 counterexample: in the concrete run of exactly `uintSize` creates the
wrapping Go counter assigns id 0 right after id `uintSize - 1`, so the
assigned-id trace is not strictly increasing — unbounded sequences violate
the claimed monotonicity/no-reuse. -/
theorem create_ids_monotone_counterexample :
    ¬ ((execOpsTr (List.replicate uintSize
        (Op.create ⟨0, "a", false, 0, 0⟩ 0))).2.Pairwise (· < ·)) := by
  intro hpw
  have hW : 1 < uintSize := by decide
  have hnc := numCreates_replicate_create (uintSize - 1) (⟨0, "a", false, 0, 0⟩ : Todo) 0
  have hb := foldl_applyOpTr_bounded
      (List.replicate (uintSize - 1) (Op.create ⟨0, "a", false, 0, 0⟩ 0))
      NewTodoRepository [] (by decide)
      (by rw [show NewTodoRepository.nextID = 1 from rfl, hnc]; omega)
  have hs2 : ((List.replicate (uintSize - 1)
      (Op.create (⟨0, "a", false, 0, 0⟩ : Todo) 0)).foldl
        applyOpTr (NewTodoRepository, [])).2 = List.range' 1 (uintSize - 1) := by
    have h2 := hb.1
    rw [hnc] at h2
    simpa [NewTodoRepository] using h2
  have hs1 : ((List.replicate (uintSize - 1)
      (Op.create (⟨0, "a", false, 0, 0⟩ : Todo) 0)).foldl
        applyOpTr (NewTodoRepository, [])).1.nextID = 0 := by
    have h2 := hb.2
    rw [hnc] at h2
    rw [h2, show NewTodoRepository.nextID = 1 from rfl,
      show 1 + (uintSize - 1) = uintSize from by omega, Nat.mod_self]
  have hsplit : List.replicate uintSize (Op.create (⟨0, "a", false, 0, 0⟩ : Todo) 0) =
      List.replicate (uintSize - 1) (Op.create ⟨0, "a", false, 0, 0⟩ 0) ++
        [Op.create ⟨0, "a", false, 0, 0⟩ 0] := by
    rw [← List.replicate_succ']
    congr 1
  rw [show execOpsTr (List.replicate uintSize
        (Op.create (⟨0, "a", false, 0, 0⟩ : Todo) 0)) =
      (List.replicate uintSize (Op.create (⟨0, "a", false, 0, 0⟩ : Todo) 0)).foldl
        applyOpTr (NewTodoRepository, []) from rfl, hsplit, List.foldl_append] at hpw
  simp only [List.foldl_cons, List.foldl_nil] at hpw
  rw [applyOpTr_create_snd, hs2, hs1] at hpw
  have h1mem : (1 : Nat) ∈ List.range' 1 (uintSize - 1) := by
    rw [List.mem_range'_1]
    omega
  have h10 := (List.pairwise_append.mp hpw).2.2 1 h1mem 0 (by simp)
  omega

/-- C2: `Create` assigns the next sequential id, stamps `CreatedAt` and
`UpdatedAt` with the current clock value, carries over the caller's title and
completed flag, stores exactly the returned record under its id, advances the
counter by the Go unsigned increment, leaves every other key untouched, and
ignores any caller-supplied id or timestamps. -/
theorem Create_spec (r : TodoRepository) (input : Todo) (now : Nat) :
    (Create r input now).2.ID = r.nextID ∧
    (Create r input now).2.CreatedAt = now ∧
    (Create r input now).2.UpdatedAt = now ∧
    (Create r input now).2.Title = input.Title ∧
    (Create r input now).2.Completed = input.Completed ∧
    (Create r input now).1.nextID = (r.nextID + 1) % uintSize ∧
    mapLookup (Create r input now).1.todos (Create r input now).2.ID =
      some (Create r input now).2 ∧
    (∀ k, k ≠ r.nextID →
      mapLookup (Create r input now).1.todos k = mapLookup r.todos k) ∧
    (∀ i c u, Create r { input with ID := i, CreatedAt := c, UpdatedAt := u } now =
      Create r input now) := by
  refine ⟨rfl, rfl, rfl, rfl, rfl, rfl, ?_, ?_, ?_⟩
  · exact mapLookup_insert_self r.todos r.nextID (Create r input now).2
  · intro k hk
    exact mapLookup_insert_ne r.todos r.nextID (Create r input now).2 k hk
  · intro i c u
    rfl

/-- C2 witness: the frame part of `Create_spec` instantiated at key 2 over a
fresh repository. -/
theorem Create_spec_witness :
    mapLookup (Create NewTodoRepository
        { ID := 7, Title := "buy milk", Completed := false,
          CreatedAt := 99, UpdatedAt := 99 } 5).1.todos 2 =
      mapLookup NewTodoRepository.todos 2 :=
  (Create_spec NewTodoRepository
    { ID := 7, Title := "buy milk", Completed := false,
      CreatedAt := 99, UpdatedAt := 99 } 5).2.2.2.2.2.2.2.1 2 (by decide)

/-- C3: on a present id, `Update` replaces the title only when the supplied
title is non-empty, always overwrites `Completed` with the supplied value,
refreshes `UpdatedAt`, leaves `ID` and `CreatedAt` as stored, stores the
result back under the same id, and returns exactly the stored record. -/
theorem Update_spec (r : TodoRepository) (id : Nat) (input : Todo) (now : Nat)
    (t : Todo) (h : mapLookup r.todos id = some t) :
    Update r id input now =
      ({ r with
          todos := mapInsert r.todos id
            ({ t with
                Title := if input.Title = "" then t.Title else input.Title,
                Completed := input.Completed, UpdatedAt := now }) },
       Except.ok
          { t with Title := if input.Title = "" then t.Title else input.Title,
                   Completed := input.Completed, UpdatedAt := now }) := by
  unfold Update
  rw [h]
  by_cases ht : input.Title = "" <;> simp [ht]

/-- C3 witness: the scenario of the spec — updating id 2 with an empty title
and `completed := true` keeps the title and overwrites the flag. -/
theorem Update_spec_witness :
    Update { todos := [(1, ⟨1, "a", false, 1, 1⟩), (2, ⟨2, "b", false, 2, 2⟩)], nextID := 3 }
        2 ⟨0, "", true, 0, 0⟩ 7 =
      ({ todos := mapInsert [(1, ⟨1, "a", false, 1, 1⟩), (2, ⟨2, "b", false, 2, 2⟩)]
            2 ⟨2, "b", true, 2, 7⟩,
         nextID := 3 },
       Except.ok ⟨2, "b", true, 2, 7⟩) := by
  exact Update_spec _ 2 _ 7 ⟨2, "b", false, 2, 2⟩ (by decide)

/-- C4: the create operation as exposed by the handler (gin binding of the
`required` tag on `Title`, then `Create`) fails with a validation error and
leaves the repository untouched exactly when the supplied title is empty, and
succeeds for every non-empty title. -/
theorem CreateTodo_validates (r : TodoRepository) (input : Todo) (now : Nat) :
    CreateTodo r input now =
      if input.Title = "" then
        (r, Except.error "Field validation for Title failed on the required tag")
      else ((Create r input now).1, Except.ok (Create r input now).2) := by
  unfold CreateTodo bindTodoJSON
  by_cases ht : input.Title = "" <;> simp [ht]

/-- C5: on an id absent from the store (never issued, or already deleted),
`FindByID`, `Update` and `Delete` each fail with the not-found error, return
no record data, and leave the repository (records and counter) exactly as it
was before the call. -/
theorem absent_id_not_found (r : TodoRepository) (id : Nat)
    (h : mapLookup r.todos id = none) :
    FindByID r id = Except.error "todo not found" ∧
    (∀ input now, Update r id input now = (r, Except.error "todo not found")) ∧
    Delete r id = (r, Except.error "todo not found") := by
  refine ⟨?_, ?_, ?_⟩
  · unfold FindByID
    rw [h]
  · intro input now
    unfold Update
    rw [h]
  · unfold Delete
    rw [h]

/-- C5 witness: deleting the never-issued id 5 from a fresh repository
fails and returns the repository unchanged. -/
theorem absent_id_not_found_witness :
    Delete NewTodoRepository 5 = (NewTodoRepository, Except.error "todo not found") :=
  (absent_id_not_found NewTodoRepository 5 rfl).2.2

theorem Update_step_preserves (r : TodoRepository) (pid : Nat) (pin : Todo)
    (pnow : Nat) (id : Nat) (u : Todo) (h : mapLookup r.todos id = some u) :
    ∃ u', mapLookup (Update r pid pin pnow).1.todos id = some u' ∧
      u'.ID = u.ID ∧ u'.CreatedAt = u.CreatedAt := by
  unfold Update
  cases hc : mapLookup r.todos pid with
  | none => exact ⟨u, h, rfl, rfl⟩
  | some existing =>
      by_cases hp : pid = id
      · subst hp
        rw [h] at hc
        injection hc with he
        subst he
        refine ⟨_, mapLookup_insert_self r.todos pid _, ?_, ?_⟩
        · by_cases ht : pin.Title = "" <;> simp [ht]
        · by_cases ht : pin.Title = "" <;> simp [ht]
      · exact ⟨u, (mapLookup_insert_ne r.todos pid _ id (Ne.symm hp)).trans h, rfl, rfl⟩

theorem applyUpdates_preserves (ps : List (Nat × Todo × Nat)) (r : TodoRepository)
    (id : Nat) (u : Todo) (h : mapLookup r.todos id = some u) :
    ∃ u', mapLookup (applyUpdates r ps).todos id = some u' ∧
      u'.ID = u.ID ∧ u'.CreatedAt = u.CreatedAt := by
  induction ps generalizing r u with
  | nil => exact ⟨u, h, rfl, rfl⟩
  | cons p rest ih =>
      obtain ⟨u₁, h1, hid1, hc1⟩ := Update_step_preserves r p.1 p.2.1 p.2.2 id u h
      obtain ⟨u₂, h2, hid2, hc2⟩ := ih _ _ h1
      exact ⟨u₂, h2, hid2.trans hid1, hc2.trans hc1⟩

/-- C6: a created record's `ID` and `CreatedAt` survive any sequence of
subsequent `Update` calls (on any ids, with any payloads and clocks): the
record stored under the created id still carries the `ID` and `CreatedAt`
that `Create` returned. -/
theorem update_preserves_id_createdAt (r : TodoRepository) (input : Todo)
    (now : Nat) (ps : List (Nat × Todo × Nat)) :
    ∃ u, mapLookup (applyUpdates (Create r input now).1 ps).todos
          (Create r input now).2.ID = some u ∧
        u.ID = (Create r input now).2.ID ∧
        u.CreatedAt = (Create r input now).2.CreatedAt := by
  have h : mapLookup (Create r input now).1.todos (Create r input now).2.ID =
      some (Create r input now).2 :=
    mapLookup_insert_self r.todos r.nextID (Create r input now).2
  exact applyUpdates_preserves ps _ _ _ h

/-- C7: after a successful `Create` of a record with a valid (non-empty)
title, an immediate `FindByID` on the returned id succeeds and returns a
record equal to the `Create` response. -/
theorem create_findByID_roundtrip (r : TodoRepository) (input : Todo) (now : Nat)
    (_h : input.Title ≠ "") :
    FindByID (Create r input now).1 (Create r input now).2.ID =
      Except.ok (Create r input now).2 := by
  have hlk : mapLookup (Create r input now).1.todos (Create r input now).2.ID =
      some (Create r input now).2 :=
    mapLookup_insert_self r.todos r.nextID (Create r input now).2
  unfold FindByID
  rw [hlk]

/-- C7 witness: the round trip for `Create({title:"buy milk"})` on a fresh
repository. -/
theorem create_findByID_roundtrip_witness :
    FindByID (Create NewTodoRepository ⟨0, "buy milk", false, 0, 0⟩ 4).1
        (Create NewTodoRepository ⟨0, "buy milk", false, 0, 0⟩ 4).2.ID =
      Except.ok (Create NewTodoRepository ⟨0, "buy milk", false, 0, 0⟩ 4).2 :=
  create_findByID_roundtrip NewTodoRepository ⟨0, "buy milk", false, 0, 0⟩ 4 (by decide)

/-- C8: deleting a present id succeeds with no content, a subsequent
`FindByID` on that id fails with the not-found error, every other stored
record is untouched, and the id counter is unchanged. -/
theorem Delete_spec (r : TodoRepository) (id : Nat) (t : Todo)
    (h : mapLookup r.todos id = some t) :
    (Delete r id).2 = Except.ok () ∧
    FindByID (Delete r id).1 id = Except.error "todo not found" ∧
    (∀ k, k ≠ id → mapLookup (Delete r id).1.todos k = mapLookup r.todos k) ∧
    (Delete r id).1.nextID = r.nextID := by
  unfold Delete
  rw [h]
  refine ⟨rfl, ?_, ?_, rfl⟩
  · unfold FindByID
    rw [mapLookup_erase_self]
  · intro k hk
    exact mapLookup_erase_ne r.todos id k hk

/-- C8 witness: deleting id 1 from a one-record store makes `FindByID 1`
fail with the not-found error. -/
theorem Delete_spec_witness :
    FindByID (Delete { todos := [(1, ⟨1, "a", false, 2, 2⟩)], nextID := 2 } 1).1 1 =
      Except.error "todo not found" :=
  (Delete_spec { todos := [(1, ⟨1, "a", false, 2, 2⟩)], nextID := 2 } 1
    ⟨1, "a", false, 2, 2⟩ rfl).2.1

/-- C9: in every reachable repository state, `FindByID` returns exactly the
record stored under the requested id — whose `ID` field equals that id — and
fails with the not-found error precisely when no stored record carries that
id; as a pure function of the state it performs no mutation. -/
theorem FindByID_raises_iff (ops : List Op) (id : Nat) :
    (∀ t, FindByID (execOps ops) id = Except.ok t ↔
      mapLookup (execOps ops).todos id = some t) ∧
    (∀ t, FindByID (execOps ops) id = Except.ok t → t.ID = id) ∧
    (FindByID (execOps ops) id = Except.error "todo not found" ↔
      ∀ k t, mapLookup (execOps ops).todos k = some t → t.ID ≠ id) := by
  obtain ⟨hnd, hlk⟩ := WFkeys_execOps ops
  have hok : ∀ t, FindByID (execOps ops) id = Except.ok t ↔
      mapLookup (execOps ops).todos id = some t := by
    intro t
    unfold FindByID
    cases hc : mapLookup (execOps ops).todos id with
    | none => simp
    | some w => simp
  refine ⟨hok, ?_, ?_⟩
  · intro t ht
    exact hlk id t ((hok t).mp ht)
  · constructor
    · intro he k t hkt hid
      have h1 : t.ID = k := hlk k t hkt
      have hk : k = id := by rw [← h1, hid]
      subst hk
      unfold FindByID at he
      rw [hkt] at he
      simp at he
    · intro hno
      unfold FindByID
      cases hc : mapLookup (execOps ops).todos id with
      | none => rfl
      | some w => exact absurd (hlk id w hc) (hno id w hc)

/-- C9 witness: after one create, `FindByID 1` returns the record whose `ID`
is 1. -/
theorem FindByID_raises_iff_witness :
    ((⟨1, "a", false, 0, 0⟩ : Todo)).ID = 1 :=
  (FindByID_raises_iff [Op.create ⟨0, "a", false, 0, 0⟩ 0] 1).2.1
    ⟨1, "a", false, 0, 0⟩ rfl

/-- C10 (amended): in every state reachable from a fresh repository by a
sequence whose number of creates keeps the wrapping `uint` counter short of
the word size (`numCreates + 1 < uintSize`), each map key equals the `ID`
field of the record stored under it, every stored key is strictly below the
`nextID` counter, the counter is at least 1, and `FindByID 0` always fails
with the not-found error.  Once the counter wraps the numeric clauses fail
(see the counterexample). -/
theorem store_invariant (ops : List Op) (hb : numCreates ops + 1 < uintSize) :
    (∀ k t, mapLookup (execOps ops).todos k = some t → t.ID = k) ∧
    (∀ k t, mapLookup (execOps ops).todos k = some t → k < (execOps ops).nextID) ∧
    1 ≤ (execOps ops).nextID ∧
    FindByID (execOps ops) 0 = Except.error "todo not found" := by
  obtain ⟨hnd, hlk, hge⟩ := WF_execOps_bounded ops hb
  refine ⟨fun k t h => (hlk k t h).1, fun k t h => (hlk k t h).2.2, hge, ?_⟩
  unfold FindByID
  cases hc : mapLookup (execOps ops).todos 0 with
  | none => rfl
  | some t =>
      have h0 := (hlk 0 t hc).2.1
      omega

/-- C10 witness: after one create, `FindByID 0` fails and the record under
key 1 carries `ID = 1`. -/
theorem store_invariant_witness :
    FindByID (execOps [Op.create ⟨0, "a", false, 0, 0⟩ 3]) 0 =
        Except.error "todo not found" ∧
    ((⟨1, "a", false, 3, 3⟩ : Todo)).ID = 1 :=
  ⟨(store_invariant [Op.create ⟨0, "a", false, 0, 0⟩ 3] (by decide)).2.2.2,
   (store_invariant [Op.create ⟨0, "a", false, 0, 0⟩ 3] (by decide)).1 1
     ⟨1, "a", false, 3, 3⟩ rfl⟩

/-- C10 counterexample: after the concrete run of `uintSize - 1` creates the
wrapping counter has come back to 0, so the claimed invariant `1 ≤ nextID`
(and with it every stored id being below the counter) fails in this
reachable state. -/
theorem store_invariant_counterexample :
    ¬ (1 ≤ (execOps (List.replicate (uintSize - 1)
        (Op.create ⟨0, "a", false, 0, 0⟩ 0))).nextID) := by
  have hW : 1 < uintSize := by decide
  have hnc := numCreates_replicate_create (uintSize - 1) (⟨0, "a", false, 0, 0⟩ : Todo) 0
  have hb := foldl_applyOpTr_bounded
      (List.replicate (uintSize - 1) (Op.create ⟨0, "a", false, 0, 0⟩ 0))
      NewTodoRepository [] (by decide)
      (by rw [show NewTodoRepository.nextID = 1 from rfl, hnc]; omega)
  have hfst := foldl_applyOpTr_fst
      (List.replicate (uintSize - 1) (Op.create ⟨0, "a", false, 0, 0⟩ 0))
      NewTodoRepository []
  have hz : (execOps (List.replicate (uintSize - 1)
      (Op.create (⟨0, "a", false, 0, 0⟩ : Todo) 0))).nextID = 0 := by
    show ((List.replicate (uintSize - 1)
      (Op.create (⟨0, "a", false, 0, 0⟩ : Todo) 0)).foldl applyOp
        NewTodoRepository).nextID = 0
    rw [← hfst]
    have h2 := hb.2
    rw [hnc] at h2
    rw [h2, show NewTodoRepository.nextID = 1 from rfl,
      show 1 + (uintSize - 1) = uintSize from by omega, Nat.mod_self]
  intro hge
  rw [hz] at hge
  omega

end GoTodo
